import Mathlib

/-!
Shallow embedding of the Gully observable-stream library.

Sources embedded:
- src/gully/data_stream.py : DataStreamBase, DataStream, DataStreamView,
  DataStreamFilteredView, DataStreamMappedView, DataStreamIterator
- src/gully.py : Gully, HistoryView, Observer, Pipeline

Machine integers are modelled as Int/Nat. asyncio futures are modelled as an
explicit slot state (pending, resolved, cancelled) with the standard asyncio
transition rules: set_result on a completed future raises InvalidStateError,
cancel on a completed future is a no-op, result() on a cancelled future raises
CancelledError. Code that can raise returns Except, or reports the raised
error in an outcome record when the raise happens after mutations.
-/

namespace GullySpec

/-- Python exceptions that the embedded code can raise. -/
inductive PyErr where
  | invalidState
  | cancelled
  | index
  | typeErr
  | key
  | notAFilterMatch
  deriving DecidableEq

/-- State of an asyncio future used as the next-value signal slot. -/
inductive SlotState (α : Type) where
  | pending
  | resolved (v : α)
  | cancelled
  deriving DecidableEq

/-- asyncio Future.set_result: resolves a pending future; raises
InvalidStateError when the future is already resolved or cancelled
(the future itself is left unchanged in that case). -/
def set_result {α : Type} (s : SlotState α) (v : α) : Except PyErr (SlotState α) :=
  match s with
  | .pending => .ok (.resolved v)
  | _ => .error .invalidState

/-- asyncio Future.cancel: cancels a pending future and is a no-op on a
future that is already resolved or cancelled. -/
def cancel {α : Type} : SlotState α → SlotState α
  | .pending => .cancelled
  | s => s

/-- asyncio Future.result: the value of a resolved future; raises
CancelledError when cancelled and InvalidStateError when still pending. -/
def result {α : Type} : SlotState α → Except PyErr α
  | .resolved v => .ok v
  | .cancelled => .error .cancelled
  | .pending => .error .invalidState

/-- DataStreamBase state: max_size, the recorded values (oldest first, like
the Python list self._values), and the current next-value future. -/
structure DataStream (α : Type) where
  max_size : Int
  values : List α
  next : SlotState α
  deriving DecidableEq

/-- DataStreamBase.__init__: empty history and a fresh pending future. -/
def mkDataStream {α : Type} (max_size : Int) : DataStream α :=
  { max_size := max_size, values := [], next := .pending }

/-- DataStreamBase._push_value: when len(self) == max_size, pop the oldest
entry (index 0) before appending; pop on an empty list raises IndexError. -/
def push_value {α : Type} (max_size : Int) (values : List α) (v : α) :
    Except PyErr (List α) :=
  if (values.length : Int) = max_size then
    match values with
    | [] => .error .index
    | _ :: rest => .ok (rest ++ [v])
  else
    .ok (values ++ [v])

/-- Result of DataStreamBase._set_value: the stream state after the call
(the call can raise after having mutated), the final state of the future
that was current on entry, and the raised exception when one propagates. -/
structure PushOutcome (α : Type) where
  state : DataStream α
  prev : SlotState α
  err : Option PyErr
  deriving DecidableEq

/-- DataStreamBase._set_value: swap in a fresh pending future, append the
value to the history, then resolve the previous future with the value. -/
def set_value {α : Type} (st : DataStream α) (v : α) : PushOutcome α :=
  let previous := st.next
  let st1 : DataStream α := { st with next := .pending }
  match push_value st1.max_size st1.values v with
  | .error e => { state := st1, prev := previous, err := some e }
  | .ok vs =>
    match set_result previous v with
    | .ok p => { state := { st1 with values := vs }, prev := p, err := none }
    | .error e => { state := { st1 with values := vs }, prev := previous, err := some e }

/-- DataStream.push. -/
def push {α : Type} (st : DataStream α) (v : α) : PushOutcome α :=
  set_value st v

/-- DataStreamBase.close: cancel the current future. -/
def close {α : Type} (st : DataStream α) : DataStream α :=
  { st with next := cancel st.next }

/-- Folding DataStream.push over a list of values; an exception raised by a
push propagates to the producer, so later pushes do not run. -/
def push_all {α : Type} (st : DataStream α) (vs : List α) :
    DataStream α × Option PyErr :=
  vs.foldl
    (fun acc v =>
      match acc.2 with
      | some _ => acc
      | none =>
        let out := push acc.1 v
        (out.state, out.err))
    (st, none)

/-- Outcome of one run of the View continuation receive(future) installed by
DataStreamView._watch: whether the continuation re-attached itself to the
parent (receive always calls self._watch() first), the view stream state
afterwards, and the exception raised inside the callback, if any. -/
structure ReceiveOutcome (β : Type) where
  reattached : Bool
  state : DataStream β
  err : Option PyErr
  deriving DecidableEq

/-- DataStreamFilteredView receive step. receive(future) first calls
self._watch() unconditionally, then _receive_value(future), which calls
future.result() and pushes the value into the view only when the predicate
holds. The Python predicate also takes the view itself as first argument;
the embedding keeps only the value argument, which the state evolution
depends on. -/
def filtered_receive {α : Type} (p : α → Bool) (st : DataStream α)
    (fut : SlotState α) : ReceiveOutcome α :=
  match result fut with
  | .error e => { reattached := true, state := st, err := some e }
  | .ok v =>
    if p v then
      let out := set_value st v
      { reattached := true, state := out.state, err := out.err }
    else
      { reattached := true, state := st, err := none }

/-- DataStreamMappedView receive step: re-attach, then push the mapped value
into the view. -/
def mapped_receive {α β : Type} (f : α → β) (st : DataStream β)
    (fut : SlotState α) : ReceiveOutcome β :=
  match result fut with
  | .error e => { reattached := true, state := st, err := some e }
  | .ok v =>
    let out := set_value st (f v)
    { reattached := true, state := out.state, err := out.err }

/-- Cascade of a view over a sequence of parent pushes under the cooperative
scheduling model: each parent push resolves the future the view watches, the
view continuation runs on the resolved future before the next push, and an
exception raised in the continuation stops the cascade. -/
def view_run_from {α β : Type} (recv : DataStream β → SlotState α → ReceiveOutcome β)
    (st : DataStream β) (vs : List α) : DataStream β × Option PyErr :=
  vs.foldl
    (fun acc v =>
      match acc.2 with
      | some _ => acc
      | none =>
        let out := recv acc.1 (.resolved v)
        (out.state, out.err))
    (st, none)

/-- DataStreamBase.filter with default max_size = -1, receiving the given
sequence of parent values. -/
def filtered_run {α : Type} (p : α → Bool) (vs : List α) :
    DataStream α × Option PyErr :=
  view_run_from (filtered_receive p) (mkDataStream (-1)) vs

/-- DataStreamBase.map with default max_size = -1, receiving the given
sequence of parent values. -/
def mapped_run {α β : Type} (f : α → β) (vs : List α) :
    DataStream β × Option PyErr :=
  view_run_from (mapped_receive f) (mkDataStream (-1)) vs

/-- DataStreamIterator state: the cursor and the limit (-1 when unbounded). -/
structure IterState where
  current_index : Nat
  limit : Int
  deriving DecidableEq

/-- DataStreamIterator.__init__ (current_index starts at 0). -/
def mkIterator (limit : Int) : IterState :=
  { current_index := 0, limit := limit }

/-- DataStreamIterator.__next__ over the recorded values of the stream:
raises StopIteration (modelled as none) when the cursor has reached the
live edge or when 0 < limit <= cursor; otherwise get_next_value returns
values[cursor] and advances the cursor. -/
def iter_next {α : Type} (values : List α) (it : IterState) :
    Option (α × IterState) :=
  if h : it.current_index < values.length ∧
      ¬(0 < it.limit ∧ it.limit ≤ (it.current_index : Int)) then
    some (values.get ⟨it.current_index, h.1⟩,
      { current_index := it.current_index + 1, limit := it.limit })
  else
    none

/-- Repeatedly calling __next__ until StopIteration: the backlog the sync
iterator drains from a stream whose recorded values are fixed. -/
def drain_from {α : Type} (values : List α) (it : IterState) : List α :=
  if h : it.current_index < values.length ∧
      ¬(0 < it.limit ∧ it.limit ≤ (it.current_index : Int)) then
    values.get ⟨it.current_index, h.1⟩ ::
      drain_from values { current_index := it.current_index + 1, limit := it.limit }
  else
    []
termination_by values.length - it.current_index

/-- HistoryView from src/gully.py: a UserList subclass holding its own data
list. UserList.__init__(initlist) builds self.data as a fresh list copied
from initlist (here: from the deque contents of the gully history), so the
view never aliases the stream's own storage. -/
structure HistoryView (α : Type) where
  data : List α
  deriving DecidableEq

/-- HistoryView.__setitem__: the only method HistoryView overrides; it
always raises TypeError. -/
def HistoryView.setitem {α : Type} (hv : HistoryView α) (i : Nat) (v : α) :
    Except PyErr (HistoryView α) :=
  .error .typeErr

/-- UserList.append, inherited by HistoryView without an override: appends
to the view's own data list and raises nothing. -/
def HistoryView.push_back {α : Type} (hv : HistoryView α) (v : α) :
    Except PyErr (HistoryView α) :=
  .ok { data := hv.data ++ [v] }

/-- UserList.__delitem__, inherited by HistoryView without an override:
deletes the entry at the index, raising IndexError only when out of range. -/
def HistoryView.delitem {α : Type} (hv : HistoryView α) (i : Nat) :
    Except PyErr (HistoryView α) :=
  if i < hv.data.length then .ok { data := hv.data.eraseIdx i }
  else .error .index

/-- Gully state from src/gully.py: the deque history (newest first), its
maxlen (derived from max_size in Gully.__init__), the observer set (Python
sets of callbacks, modelled as duplicate-free lists of callback ids), and
the pipeline steps. A pipeline step takes the current value and either
returns the new value or raises. -/
structure GullyState (α : Type) where
  max_size : Int
  history : List α
  observers : List Nat
  pipeline : List (α → Except PyErr α)

/-- deque.appendleft with the maxlen chosen in Gully.__init__
(max_size > 0 and max_size or None): bounded deques discard from the
opposite end when full. -/
def append_left {α : Type} (max_size : Int) (h : List α) (v : α) : List α :=
  if 0 < max_size then (v :: h).take max_size.toNat else v :: h

/-- Pipeline.run: threads the value through the steps in order; a raised
exception stops the pipeline and propagates. -/
def pipeline_run {α : Type} (steps : List (α → Except PyErr α)) (item : α) :
    Except PyErr α :=
  steps.foldl (fun value step => value.bind step) (.ok item)

/-- The wrapper Gully.add_filter puts around each filter predicate: raise
NotAFilterMatch when the predicate rejects the item, else pass it through. -/
def filter_wrapper {α : Type} (p : α → Bool) (item : α) : Except PyErr α :=
  if p item then .ok item else .error .notAFilterMatch

/-- The observer tasks Gully.push schedules on the loop: one task per
registered observer callback, each receiving the pushed value. -/
def schedule_tasks {α : Type} (observers : List Nat) (v : α) : List (Nat × α) :=
  observers.map (fun c => (c, v))

/-- Outcome of Gully.push: the history afterwards, the observer tasks
scheduled, and the exception that propagated to the caller, if any. -/
structure GullyPushOutcome (α : Type) where
  history : List α
  scheduled : List (Nat × α)
  err : Option PyErr

/-- Gully.push: run the pipeline on the item; NotAFilterMatch returns
silently, any other exception propagates; only on success is the value
appended (left) to the history and a task scheduled for every observer. -/
def gully_push {α : Type} (g : GullyState α) (item : α) : GullyPushOutcome α :=
  match pipeline_run g.pipeline item with
  | .error .notAFilterMatch =>
    { history := g.history, scheduled := [], err := none }
  | .error e =>
    { history := g.history, scheduled := [], err := some e }
  | .ok value =>
    { history := append_left g.max_size g.history value
      scheduled := schedule_tasks g.observers value
      err := none }

/-- A Python value that can be passed to Gully.stop_watching: either a raw
callback (compared by identity, modelled as an id) or an Observer wrapping
a callback. -/
inductive PyVal where
  | cb (id : Nat)
  | obs (callbackId : Nat)
  deriving DecidableEq

/-- Python equality over callbacks and Observers. Observer.__eq__(self,
other) returns other == self._callback, and plain callbacks compare by
identity, so every case bottoms out at the callback ids. -/
def pyEq : PyVal → PyVal → Bool
  | .cb a, .cb b => a == b
  | .cb a, .obs b => b == a
  | .obs a, .cb b => b == a
  | .obs a, .obs b => b == a

/-- Python hash: Observer.__hash__ returns hash(self._callback), so both
forms hash to the callback id. -/
def pyHash : PyVal → Nat
  | .cb n => n
  | .obs n => n

/-- set.add of a callback, as used by the start function Gully.watch gives
the Observer: a no-op when the callback is already registered. -/
def observers_add (s : List Nat) (c : Nat) : List Nat :=
  if c ∈ s then s else s ++ [c]

/-- set.remove keyed by Python hash/equality, as used by Gully.stop_watching
and the Observer stop function: removes the matching element, raising
KeyError when nothing matches. -/
def observers_remove (s : List Nat) (x : PyVal) : Except PyErr (List Nat) :=
  if s.any (fun c => pyEq x (.cb c)) then
    .ok (s.eraseP (fun c => pyEq x (.cb c)))
  else
    .error .key

/-- Gully.watch on a raw callback: registers the callback in the observer
set (via Observer.enable) and returns the Observer wrapping it. -/
def watch (s : List Nat) (c : Nat) : List Nat × PyVal :=
  (observers_add s c, .obs c)

/-- Gully.history: builds a fresh HistoryView over the current history;
UserList.__init__ copies the deque contents into the view's own new data
list, so the view never aliases the gully's deque. -/
def gully_history {α : Type} (g : GullyState α) : HistoryView α :=
  { data := g.history }

/-- The last k entries of a list (all of it when it is shorter than k). -/
def lastN {α : Type} (k : Nat) (l : List α) : List α :=
  l.drop (l.length - k)

/-! Helper lemmas about _set_value and push sequences. -/

/-- When the history is not at capacity and the slot is pending, _set_value
appends the value, resolves the previous slot and raises nothing. -/
theorem set_value_no_eviction {α : Type} (st : DataStream α) (v : α)
    (hn : st.next = .pending) (hlen : (st.values.length : Int) ≠ st.max_size) :
    set_value st v =
      { state := { max_size := st.max_size, values := st.values ++ [v], next := .pending },
        prev := .resolved v, err := none } := by
  simp [set_value, push_value, set_result, hn, hlen]

/-- When the history is exactly at capacity and nonempty, _set_value pops the
oldest entry, appends the value and resolves the previous slot. -/
theorem set_value_eviction {α : Type} (st : DataStream α) (v a : α) (rest : List α)
    (hn : st.next = .pending) (hv : st.values = a :: rest)
    (hlen : (st.values.length : Int) = st.max_size) :
    set_value st v =
      { state := { max_size := st.max_size, values := rest ++ [v], next := .pending },
        prev := .resolved v, err := none } := by
  have hlen2 : (rest.length : Int) + 1 = st.max_size := by
    have h3 : st.values.length = rest.length + 1 := by rw [hv, List.length_cons]
    rw [h3] at hlen
    omega
  simp [set_value, push_value, set_result, hn, hv, hlen2]

/-- Unfolding one successful push at the head of push_all. -/
theorem push_all_cons_ok {α : Type} (st : DataStream α) (v : α) (vs : List α)
    (h : (push st v).err = none) :
    push_all st (v :: vs) = push_all (push st v).state vs := by
  simp [push_all, h]

theorem lastN_length {α : Type} (k : Nat) (l : List α) :
    (lastN k l).length = min l.length k := by
  simp [lastN]
  omega

theorem lastN_of_le {α : Type} (k : Nat) (l : List α) (h : l.length ≤ k) :
    lastN k l = l := by
  have : l.length - k = 0 := by omega
  simp [lastN, this]

theorem lastN_cons_of_le {α : Type} (k : Nat) (a : α) (l : List α) (h : k ≤ l.length) :
    lastN k (a :: l) = lastN k l := by
  have h1 : (a :: l).length - k = (l.length - k) + 1 := by
    simp
    omega
  simp only [lastN, h1, List.drop_succ_cons]

/-- Invariant for a bounded stream (max_size = k > 0): pushes never raise and
the history is always the last k values pushed so far, oldest first. -/
theorem push_all_bounded_from {α : Type} (k : Nat) (hk : 0 < k) (vs : List α) :
    ∀ st : DataStream α, st.max_size = (k : Int) → st.next = .pending →
      st.values.length ≤ k →
      push_all st vs =
        ({ max_size := (k : Int), values := lastN k (st.values ++ vs), next := .pending },
          none) := by
  induction vs with
  | nil =>
    intro st hm hn hl
    have h0 : lastN k (st.values ++ []) = st.values := by
      rw [List.append_nil]
      exact lastN_of_le k st.values hl
    show (st, (none : Option PyErr)) = _
    rw [h0, ← hm, ← hn]
  | cons v vs ih =>
    intro st hm hn hl
    rcases Nat.lt_or_ge st.values.length k with hlt | hge
    · have hne : (st.values.length : Int) ≠ st.max_size := by
        rw [hm]; intro hcontra; omega
      have hsv := set_value_no_eviction st v hn hne
      have herr : (push st v).err = none := by rw [push, hsv]
      have hstate : (push st v).state =
          { max_size := st.max_size, values := st.values ++ [v], next := SlotState.pending } := by
        rw [push, hsv]
      rw [push_all_cons_ok st v vs herr, hstate,
        ih _ (by simpa using hm) rfl (by simp; omega)]
      simp
    · have hexact : st.values.length = k := by omega
      obtain ⟨a, rest, hv⟩ : ∃ a rest, st.values = a :: rest := by
        cases hv0 : st.values with
        | nil => rw [hv0] at hexact; simp at hexact; omega
        | cons a rest => exact ⟨a, rest, rfl⟩
      have hlen : (st.values.length : Int) = st.max_size := by
        rw [hm, hexact]
      have hsv := set_value_eviction st v a rest hn hv hlen
      have herr : (push st v).err = none := by rw [push, hsv]
      have hstate : (push st v).state =
          { max_size := st.max_size, values := rest ++ [v], next := SlotState.pending } := by
        rw [push, hsv]
      have hrest : rest.length + 1 = k := by
        rw [hv] at hexact
        simpa using hexact
      have hfix : lastN k (st.values ++ (v :: vs)) = lastN k ((rest ++ [v]) ++ vs) := by
        rw [hv]
        have h1 : (a :: rest) ++ (v :: vs) = a :: (rest ++ (v :: vs)) := by simp
        rw [h1, lastN_cons_of_le k a _ (by simp; omega)]
        simp
      rw [push_all_cons_ok st v vs herr, hstate,
        ih _ (by simpa using hm) rfl (by simp; omega), hfix]

/-- The k > 0 half of the bounded-history invariant, from a fresh stream. -/
theorem push_all_bounded {α : Type} (k : Nat) (hk : 0 < k) (vs : List α) :
    push_all (mkDataStream (k : Int)) vs =
      ({ max_size := (k : Int), values := lastN k vs, next := .pending }, none) := by
  have h := push_all_bounded_from k hk vs (mkDataStream (k : Int)) rfl rfl (by simp [mkDataStream])
  simpa [mkDataStream] using h

/-- For a stream with negative max_size the history is unbounded: every push
succeeds and all values are retained in order. -/
theorem push_all_unbounded_from {α : Type} (k : Int) (hk : k < 0) (vs : List α) :
    ∀ st : DataStream α, st.max_size = k → st.next = .pending →
      push_all st vs =
        ({ max_size := k, values := st.values ++ vs, next := .pending }, none) := by
  induction vs with
  | nil =>
    intro st hm hn
    show (st, (none : Option PyErr)) = _
    rw [List.append_nil, ← hm, ← hn]
  | cons v vs ih =>
    intro st hm hn
    have hne : (st.values.length : Int) ≠ st.max_size := by
      rw [hm]; intro hcontra; omega
    have hsv := set_value_no_eviction st v hn hne
    have herr : (push st v).err = none := by rw [push, hsv]
    have hstate : (push st v).state =
        { max_size := st.max_size, values := st.values ++ [v], next := SlotState.pending } := by
      rw [push, hsv]
    rw [push_all_cons_ok st v vs herr, hstate, ih _ (by simpa using hm) rfl]
    simp

theorem push_all_unbounded {α : Type} (k : Int) (hk : k < 0) (vs : List α) :
    push_all (mkDataStream k) vs =
      ({ max_size := k, values := vs, next := .pending }, none) := by
  simpa [mkDataStream] using push_all_unbounded_from k hk vs (mkDataStream k) rfl rfl

/-- In src/gully.py an unbounded Gully (max_size below 1, including 0) keeps
every pushed value, newest first: the deque maxlen is None in that case. -/
theorem gully_append_left_unbounded {α : Type} (k : Int) (hk : ¬0 < k) (vs : List α) :
    vs.foldl (append_left k) [] = vs.reverse := by
  have key : ∀ (l : List α) (acc : List α), l.foldl (append_left k) acc = l.reverse ++ acc := by
    intro l
    induction l with
    | nil => intro acc; simp
    | cons x xs ih =>
      intro acc
      simp only [List.foldl_cons, List.reverse_cons]
      rw [ih]
      simp [append_left, hk]
  simpa using key vs []

/-- C1: with max_size = 0 the very first push on a DataStream raises
IndexError (pop from an empty list) instead of treating the history as
unbounded, and nothing is recorded. The claim is right about k > 0 (see
push_all_bounded) and k < 0 (see push_all_unbounded); the k = 0 case is a
slip in DataStreamBase._push_value, contradicting the repository's own
documented policy that sizes below 1 mean unlimited history. -/
theorem c1_max_size_zero_push_raises :
    (push (mkDataStream 0 : DataStream Nat) 1).err = some PyErr.index
  ∧ (push (mkDataStream 0 : DataStream Nat) 1).state.values = ([] : List Nat) := by
  constructor <;> rfl

/-- C2: pushing into a closed DataStream is not silently ignored: the
value is appended to the history first and resolving the cancelled slot
then raises InvalidStateError, which propagates to the producer. -/
theorem c2_push_after_close_raises_and_mutates :
    (close (mkDataStream (-1) : DataStream Nat)).values = ([] : List Nat)
  ∧ (push (close (mkDataStream (-1) : DataStream Nat)) 7).err = some PyErr.invalidState
  ∧ (push (close (mkDataStream (-1) : DataStream Nat)) 7).state.values = [7] := by
  refine ⟨rfl, rfl, rfl⟩

/-- C7: a push on a stream whose slot is pending (and whose history append
does not hit the max_size = 0 slip recorded under C1) resolves the previous
slot with the pushed value, leaves a fresh pending slot installed, raises
nothing, and a slot that is already resolved or cancelled never transitions
again: set_result on it raises InvalidStateError and cancel leaves it
unchanged. -/
theorem c7_slot_discipline {α : Type} (st : DataStream α) (v : α)
    (hn : st.next = .pending) (hb : ¬(st.max_size = 0 ∧ st.values = [])) :
    (set_value st v).prev = .resolved v
  ∧ (set_value st v).state.next = .pending
  ∧ (set_value st v).err = none
  ∧ (∀ s : SlotState α, s ≠ .pending →
      set_result s v = .error .invalidState ∧ cancel s = s) := by
  have himm : ∀ s : SlotState α, s ≠ .pending →
      set_result s v = .error .invalidState ∧ cancel s = s := by
    intro s hs
    cases s with
    | pending => exact absurd rfl hs
    | resolved w => exact ⟨rfl, rfl⟩
    | cancelled => exact ⟨rfl, rfl⟩
  by_cases hlen : (st.values.length : Int) = st.max_size
  · rcases hv : st.values with _ | ⟨a, rest⟩
    · exfalso
      apply hb
      constructor
      · rw [hv] at hlen; simpa using hlen.symm
      · exact hv
    · have h := set_value_eviction st v a rest hn hv hlen
      rw [h]
      exact ⟨rfl, rfl, rfl, himm⟩
  · have h := set_value_no_eviction st v hn hlen
    rw [h]
    exact ⟨rfl, rfl, rfl, himm⟩

/-- Witness for C7 at a concrete unbounded stream. -/
theorem c7_slot_discipline_witness :
    (set_value (mkDataStream (-1) : DataStream Nat) 5).prev = SlotState.resolved 5
  ∧ (set_value (mkDataStream (-1) : DataStream Nat) 5).state.next = SlotState.pending
  ∧ (set_value (mkDataStream (-1) : DataStream Nat) 5).err = none := by
  have h := c7_slot_discipline (mkDataStream (-1) : DataStream Nat) 5 rfl (by decide)
  exact ⟨h.1, h.2.1, h.2.2.1⟩

/-! View cascade lemmas. -/

/-- Unfolding one received value at the head of a view cascade when the
continuation raises nothing. -/
theorem view_run_from_cons {α β : Type}
    (recv : DataStream β → SlotState α → ReceiveOutcome β)
    (st : DataStream β) (v : α) (vs : List α)
    (h : (recv st (.resolved v)).err = none) :
    view_run_from recv st (v :: vs) =
      view_run_from recv (recv st (.resolved v)).state vs := by
  simp [view_run_from, h]

/-- A filtered view with unbounded history, watching an open parent, records
exactly the values the predicate accepts, appended to what it already holds. -/
theorem filtered_run_from {α : Type} (p : α → Bool) (vs : List α) :
    ∀ st : DataStream α, st.max_size < 0 → st.next = .pending →
      view_run_from (filtered_receive p) st vs =
        ({ max_size := st.max_size, values := st.values ++ vs.filter p,
           next := .pending }, none) := by
  induction vs with
  | nil =>
    intro st hm hn
    show (st, (none : Option PyErr)) = _
    rw [List.filter_nil, List.append_nil, ← hn]
  | cons v vs ih =>
    intro st hm hn
    have hne : (st.values.length : Int) ≠ st.max_size := by
      intro hcontra; omega
    have hsv := set_value_no_eviction st v hn hne
    by_cases hp : p v
    · have hrecv : filtered_receive p st (.resolved v) =
          { reattached := true,
            state := { max_size := st.max_size, values := st.values ++ [v],
                       next := SlotState.pending },
            err := none } := by
        simp [filtered_receive, result, hp, hsv]
      rw [view_run_from_cons _ st v vs (by rw [hrecv]), hrecv,
        ih _ (by simpa using hm) rfl]
      simp [List.filter_cons_of_pos hp]
    · have hrecv : filtered_receive p st (.resolved v) =
          { reattached := true, state := st, err := none } := by
        simp [filtered_receive, result, hp]
      rw [view_run_from_cons _ st v vs (by rw [hrecv]), hrecv, ih _ hm hn]
      simp [List.filter_cons_of_neg, hp]

/-- A mapped view with unbounded history, watching an open parent, records
the image of every parent value, appended to what it already holds. -/
theorem mapped_run_from {α β : Type} (f : α → β) (vs : List α) :
    ∀ st : DataStream β, st.max_size < 0 → st.next = .pending →
      view_run_from (mapped_receive f) st vs =
        ({ max_size := st.max_size, values := st.values ++ vs.map f,
           next := .pending }, none) := by
  induction vs with
  | nil =>
    intro st hm hn
    show (st, (none : Option PyErr)) = _
    rw [List.map_nil, List.append_nil, ← hn]
  | cons v vs ih =>
    intro st hm hn
    have hne : (st.values.length : Int) ≠ st.max_size := by
      intro hcontra; omega
    have hsv := set_value_no_eviction st (f v) hn hne
    have hrecv : mapped_receive f st (.resolved v) =
        { reattached := true,
          state := { max_size := st.max_size, values := st.values ++ [f v],
                     next := SlotState.pending },
          err := none } := by
      simp [mapped_receive, result, hsv]
    rw [view_run_from_cons _ st v vs (by rw [hrecv]), hrecv,
      ih _ (by simpa using hm) rfl]
    simp

/-- C3: when the parent of a view is closed, the view continuation does not
close the view: it re-attaches to the parent's (still cancelled) future and
future.result() raises CancelledError inside the callback, while the view's
own slot stays pending, so closure never propagates to the view or further
down a filter/map chain. Evaluated at a fresh filtered view of a freshly
closed parent. -/
theorem c3_parent_close_not_propagated :
    (close (mkDataStream (-1) : DataStream Nat)).next = SlotState.cancelled
  ∧ (filtered_receive (fun v => v % 2 == 0) (mkDataStream (-1))
      (close (mkDataStream (-1) : DataStream Nat)).next).reattached = true
  ∧ (filtered_receive (fun v => v % 2 == 0) (mkDataStream (-1))
      (close (mkDataStream (-1) : DataStream Nat)).next).err = some PyErr.cancelled
  ∧ (filtered_receive (fun v => v % 2 == 0) (mkDataStream (-1))
      (close (mkDataStream (-1) : DataStream Nat)).next).state.next
      = SlotState.pending
  ∧ (mapped_receive (fun v => v + 1) (mkDataStream (-1))
      (close (mkDataStream (-1) : DataStream Nat)).next).reattached = true
  ∧ (mapped_receive (fun v => v + 1) (mkDataStream (-1))
      (close (mkDataStream (-1) : DataStream Nat)).next).err = some PyErr.cancelled := by
  refine ⟨rfl, rfl, rfl, rfl, rfl, rfl⟩

/-- C4: a filtered view over values v1..vn emits and records exactly the
subsequence accepted by the predicate, in order; rejected values change
nothing but the continuation still re-attaches to keep watching. -/
theorem c4_filter_subsequence {α : Type} (p : α → Bool) (vs : List α) :
    (filtered_run p vs).1.values = vs.filter p
  ∧ (filtered_run p vs).2 = none
  ∧ (∀ (st : DataStream α) (v : α), p v = false →
      (filtered_receive p st (.resolved v)).state = st
      ∧ (filtered_receive p st (.resolved v)).reattached = true) := by
  have h := filtered_run_from p vs (mkDataStream (-1))
    (by show (-1 : Int) < 0; decide) rfl
  refine ⟨?_, ?_, ?_⟩
  · rw [filtered_run, h]
    simp [mkDataStream]
  · rw [filtered_run, h]
  · intro st v hp
    constructor <;> simp [filtered_receive, result, hp]

/-- Witness for C4 over a concrete predicate and push sequence. -/
theorem c4_filter_subsequence_witness :
    (filtered_run (fun v => v % 2 == 0) [1, 2, 3, 4]).1.values = [2, 4]
  ∧ (filtered_receive (fun v => v % 2 == 0) (mkDataStream (-1))
      (.resolved 3)).state = (mkDataStream (-1) : DataStream Nat) := by
  have h := c4_filter_subsequence (fun v => v % 2 == 0) [1, 2, 3, 4]
  refine ⟨?_, (h.2.2 (mkDataStream (-1)) 3 (by decide)).1⟩
  rw [h.1]
  rfl

/-- C5: a mapped view over values v1..vn emits and records exactly
f(v1), ..., f(vn) in order, one output per input, none dropped, and the
cascade raises nothing. -/
theorem c5_map_one_to_one {α β : Type} (f : α → β) (vs : List α) :
    (mapped_run f vs).1.values = vs.map f
  ∧ (mapped_run f vs).2 = none := by
  have h := mapped_run_from f vs (mkDataStream (-1))
    (by show (-1 : Int) < 0; decide) rfl
  constructor
  · rw [mapped_run, h]
    simp [mkDataStream]
  · rw [mapped_run, h]

/-! Iterator lemmas. -/

/-- With a non-positive limit, draining from any cursor replays exactly the
recorded values from that index on. -/
theorem drain_from_unbounded {α : Type} (values : List α) (lim : Int)
    (hl : lim ≤ 0) : ∀ i : Nat,
    drain_from values { current_index := i, limit := lim } = values.drop i := by
  have key : ∀ (n i : Nat), values.length - i ≤ n →
      drain_from values { current_index := i, limit := lim } = values.drop i := by
    intro n
    induction n with
    | zero =>
      intro i hi
      have hge : values.length ≤ i := by omega
      rw [drain_from, dif_neg, List.drop_eq_nil_of_le hge]
      intro hcontra
      have h1 : i < values.length := hcontra.1
      omega
    | succ n ih =>
      intro i hi
      by_cases h : i < values.length
      · have hnl : ¬(0 < lim ∧ lim ≤ (i : Int)) := by
          intro hcontra
          omega
        rw [drain_from, dif_pos ⟨h, hnl⟩, ih (i + 1) (by omega),
          List.drop_eq_get_cons h]
      · rw [drain_from, dif_neg, List.drop_eq_nil_of_le (by omega)]
        intro hcontra
        have h1 : i < values.length := hcontra.1
        omega
  intro i
  exact key (values.length - i) i (by omega)

/-- C6: the synchronous iterator returns History[cursor] and advances while
the cursor is below the number of recorded values and the positive limit is
not reached; it signals end-of-sequence (StopIteration) when the cursor has
hit the live edge or the positive limit; a fresh iterator starts at cursor 0
and, when unbounded, drains exactly the recorded backlog before stopping at
the live edge. -/
theorem c6_iterator_cursor {α : Type} (values : List α) (i : Nat) (lim : Int) :
    (∀ h : i < values.length, ¬(0 < lim ∧ lim ≤ (i : Int)) →
      iter_next values { current_index := i, limit := lim } =
        some (values.get ⟨i, h⟩, { current_index := i + 1, limit := lim }))
  ∧ (values.length ≤ i →
      iter_next values { current_index := i, limit := lim } = none)
  ∧ (0 < lim ∧ lim ≤ (i : Int) →
      iter_next values { current_index := i, limit := lim } = none)
  ∧ (mkIterator lim).current_index = 0
  ∧ (lim ≤ 0 → drain_from values (mkIterator lim) = values) := by
  refine ⟨?_, ?_, ?_, rfl, ?_⟩
  · intro h hnl
    rw [iter_next, dif_pos ⟨h, hnl⟩]
  · intro hge
    rw [iter_next, dif_neg]
    intro hcontra
    have h1 : i < values.length := hcontra.1
    omega
  · intro hlim
    rw [iter_next, dif_neg]
    intro hcontra
    exact hcontra.2 hlim
  · intro hl
    rw [mkIterator, drain_from_unbounded values lim hl 0, List.drop_zero]

/-- Witness for C6 on a concrete two-element backlog. -/
theorem c6_iterator_cursor_witness :
    iter_next [10, 20] { current_index := 0, limit := (-1 : Int) } =
      some (10, { current_index := 1, limit := (-1 : Int) })
  ∧ iter_next [10, 20] { current_index := 2, limit := (-1 : Int) } = none
  ∧ iter_next [10, 20] { current_index := 1, limit := (1 : Int) } = none
  ∧ drain_from [10, 20] (mkIterator (-1)) = [10, 20] := by
  have h0 := c6_iterator_cursor [10, 20] 0 (-1)
  have h2 := c6_iterator_cursor [10, 20] 2 (-1)
  have h1 := c6_iterator_cursor [10, 20] 1 1
  refine ⟨?_, h2.2.1 (by decide), h1.2.2.1 (by decide), h0.2.2.2.2 (by decide)⟩
  have := h0.1 (by decide) (by decide)
  simpa using this

/-! Gully push, HistoryView and Observer theorems. -/

/-- C10: when any pipeline step raises while Gully.push runs the pipeline
(including the NotAFilterMatch raised by a rejecting filter), the history is
left unchanged and no observer task is scheduled; only when the whole
pipeline succeeds is the result appended (newest first) and a task scheduled
for every registered observer. -/
theorem c10_push_atomicity {α : Type} (g : GullyState α) (item : α) :
    (∀ e : PyErr, pipeline_run g.pipeline item = .error e →
      (gully_push g item).history = g.history
      ∧ (gully_push g item).scheduled = [])
  ∧ (∀ v : α, pipeline_run g.pipeline item = .ok v →
      (gully_push g item).history = append_left g.max_size g.history v
      ∧ (gully_push g item).scheduled = schedule_tasks g.observers v
      ∧ (gully_push g item).err = none) := by
  constructor
  · intro e he
    cases e <;> simp [gully_push, he]
  · intro v hv
    simp [gully_push, hv]

/-- Witness for C10 on a concrete gully with one even-only filter and one
observer: pushing 3 is rejected and changes nothing, pushing 4 is recorded
and scheduled. -/
theorem c10_push_atomicity_witness :
    (gully_push (⟨-1, [0], [7], [filter_wrapper (fun v => v % 2 == 0)]⟩ :
        GullyState Nat) 3).history = [0]
  ∧ (gully_push (⟨-1, [0], [7], [filter_wrapper (fun v => v % 2 == 0)]⟩ :
        GullyState Nat) 3).scheduled = []
  ∧ (gully_push (⟨-1, [0], [7], [filter_wrapper (fun v => v % 2 == 0)]⟩ :
        GullyState Nat) 4).history = [4, 0]
  ∧ (gully_push (⟨-1, [0], [7], [filter_wrapper (fun v => v % 2 == 0)]⟩ :
        GullyState Nat) 4).scheduled = [(7, 4)] := by
  have hg3 := c10_push_atomicity
    (⟨-1, [0], [7], [filter_wrapper (fun v => v % 2 == 0)]⟩ : GullyState Nat) 3
  have hg4 := c10_push_atomicity
    (⟨-1, [0], [7], [filter_wrapper (fun v => v % 2 == 0)]⟩ : GullyState Nat) 4
  refine ⟨(hg3.1 PyErr.notAFilterMatch rfl).1, (hg3.1 PyErr.notAFilterMatch rfl).2,
    ?_, ?_⟩
  · rw [(hg4.2 4 rfl).1]
    rfl
  · rw [(hg4.2 4 rfl).2.1]
    rfl

/-- C9 counterexample: not every attempt to mutate the exposed history view
fails with an error. HistoryView only overrides item assignment; the
mutators inherited from UserList, such as append and item deletion, succeed
on the view without raising. -/
theorem c9_mutators_not_all_rejected :
    HistoryView.push_back ({ data := [1, 2] } : HistoryView Nat) 3 =
      Except.ok { data := [1, 2, 3] }
  ∧ HistoryView.delitem ({ data := [1, 2] } : HistoryView Nat) 0 =
      Except.ok { data := [2] } := by
  constructor <;> rfl

/-- C9 amended: item assignment on the exposed history view always fails
with a TypeError; the other inherited mutators succeed, but they act on the
view's own data (the view is built as a fresh copy of the gully history), so
reading the gully history again is unaffected by anything done to a view. -/
theorem c9_amended_read_only_view {α : Type} (hv : HistoryView α) (i : Nat)
    (v : α) (g : GullyState α) :
    HistoryView.setitem hv i v = Except.error PyErr.typeErr
  ∧ HistoryView.push_back hv v = Except.ok { data := hv.data ++ [v] }
  ∧ gully_history g = { data := g.history } :=
  ⟨rfl, rfl, rfl⟩

/-- C8: the Observer returned by watch(callback) compares equal to and
hashes like the raw callback, so stop_watching removes the registered
subscription identically whether it is given the raw callback or the
Observer, and afterwards no scheduled task targets that callback. -/
theorem c8_observer_eq_delegation {α : Type} (s0 : List Nat) (c : Nat)
    (hnd : s0.Nodup) :
    (watch s0 c).2 = PyVal.obs c
  ∧ pyEq (PyVal.obs c) (PyVal.cb c) = true
  ∧ pyHash (PyVal.obs c) = pyHash (PyVal.cb c)
  ∧ observers_remove (watch s0 c).1 (PyVal.cb c) =
      observers_remove (watch s0 c).1 (PyVal.obs c)
  ∧ ∃ s2, observers_remove (watch s0 c).1 (PyVal.cb c) = Except.ok s2
      ∧ c ∉ s2
      ∧ ∀ (v : α) (q : Nat × α), q ∈ schedule_tasks s2 v → q.1 ≠ c := by
  have hbeq : ∀ a b : Nat, (a == b) = (b == a) := by
    intro a b
    by_cases h : a = b
    · rw [h]
    · have h1 : (a == b) = false := beq_eq_false_iff_ne.mpr h
      have h2 : (b == a) = false := beq_eq_false_iff_ne.mpr fun hh => h hh.symm
      rw [h1, h2]
  have hfun : (fun c0 => pyEq (PyVal.cb c) (PyVal.cb c0)) =
      (fun c0 => pyEq (PyVal.obs c) (PyVal.cb c0)) := by
    funext c0
    simp only [pyEq]
    exact hbeq c c0
  have hfun2 : (fun c0 => pyEq (PyVal.cb c) (PyVal.cb c0)) =
      (fun c0 => c == c0) := by
    funext c0
    simp only [pyEq]
  have hc : c ∈ observers_add s0 c := by
    by_cases h : c ∈ s0 <;> simp [observers_add, h]
  have hnd2 : (observers_add s0 c).Nodup := by
    by_cases h : c ∈ s0
    · simpa [observers_add, h] using hnd
    · simp [observers_add, h, List.nodup_append, hnd]
  have hany : (observers_add s0 c).any
      (fun c0 => pyEq (PyVal.cb c) (PyVal.cb c0)) = true := by
    rw [List.any_eq_true]
    exact ⟨c, hc, by simp [pyEq]⟩
  have hs2 : observers_remove (watch s0 c).1 (PyVal.cb c) =
      Except.ok ((observers_add s0 c).erase c) := by
    show observers_remove (observers_add s0 c) (PyVal.cb c) = _
    unfold observers_remove
    rw [hany, hfun2, ← List.erase_eq_eraseP]
    simp
  have hcnot : c ∉ (observers_add s0 c).erase c := hnd2.not_mem_erase
  refine ⟨rfl, by simp [pyEq], rfl, ?_, ?_⟩
  · simp only [observers_remove, hfun]
  · refine ⟨(observers_add s0 c).erase c, hs2, hcnot, ?_⟩
    intro v q hq
    rcases List.mem_map.mp hq with ⟨c0, hc0, hq0⟩
    have h1 : q.1 = c0 := by rw [← hq0]
    intro hqc
    rw [h1] at hqc
    rw [hqc] at hc0
    exact hcnot hc0

/-- Witness for C8 on an observer set holding callbacks 3 and 5. -/
theorem c8_observer_eq_delegation_witness :
    observers_remove (watch [3] 5).1 (PyVal.cb 5) =
      observers_remove (watch [3] 5).1 (PyVal.obs 5)
  ∧ pyEq (PyVal.obs 5) (PyVal.cb 5) = true
  ∧ observers_remove (watch [3] 5).1 (PyVal.cb 5) = Except.ok [3] := by
  have h := c8_observer_eq_delegation (α := Nat) [3] 5 (by simp)
  exact ⟨h.2.2.2.1, h.2.1, by rfl⟩

end GullySpec
